import Mathlib

/-!
A verification development for the Portunus directory service.

We shallowly embed the Go sources (package `core`: nexus, groups, validation;
package `h`: form fields; package `main`: slapd configuration rendering) into
Lean and prove the specified properties about them.

Go strings are modelled as Lean `String`s; where character-level processing is
needed we work on `String.data : List Char` (Go iterates over runes in much the
same way, and `List Char` computation is kernel-reducible).
-/

namespace Portunus

/-! ## Go string primitives -/

/-- The set of white space characters recognised by Go's `unicode.IsSpace`:
'\t', '\n', '\v', '\f', '\r', ' ', U+0085, U+00A0 and the Unicode
White_Space code points outside Latin-1. -/
def goIsSpace (c : Char) : Bool :=
  let n := c.toNat
  n == 9 || n == 10 || n == 11 || n == 12 || n == 13 || n == 32 ||
  n == 133 || n == 160 || n == 0x1680 ||
  (0x2000 ≤ n && n ≤ 0x200A) ||
  n == 0x2028 || n == 0x2029 || n == 0x202F || n == 0x205F || n == 0x3000

/-- Go `strings.TrimSpace` on a rune list: drop white space from both ends. -/
def goTrimSpace (l : List Char) : List Char :=
  ((l.dropWhile goIsSpace).reverse.dropWhile goIsSpace).reverse

/-- Go `strings.TrimLeftFunc(·, unicode.IsSpace)` on a rune list. -/
def goTrimLeftSpace (l : List Char) : List Char :=
  l.dropWhile goIsSpace

/-- Go `strings.TrimRightFunc(·, unicode.IsSpace)` on a rune list. -/
def goTrimRightSpace (l : List Char) : List Char :=
  (l.reverse.dropWhile goIsSpace).reverse

/-! ## internal/core/validation.go -/

/-- The sentinel error values declared at the top of `validation.go`
(`errIsMissing`, `errLeadingSpaces`, ...). Each Go `errors.New` value is one
constructor. -/
inductive FieldErr where
  | errIsMissing
  | errLeadingSpaces
  | errTrailingSpaces
  | errNotPosixAccountName
  | errNotPosixUIDorGID
  | errNotAbsolutePath
  deriving DecidableEq, Repr

/-- Embedding of `core.MustNotBeEmpty`: returns `errIsMissing` when
`strings.TrimSpace(val) == ""`, and `nil` (here `none`) otherwise. -/
def MustNotBeEmpty (val : String) : Option FieldErr :=
  if goTrimSpace val.data = [] then some .errIsMissing else none

/-- Embedding of `core.MustNotHaveSurroundingSpaces`: for non-empty input, reports leading
white space first, then trailing white space. -/
def MustNotHaveSurroundingSpaces (val : String) : Option FieldErr :=
  if val.data ≠ [] then
    if goTrimLeftSpace val.data ≠ val.data then some .errLeadingSpaces
    else if goTrimRightSpace val.data ≠ val.data then some .errTrailingSpaces
    else none
  else none

/-! ## Go maps as association lists

A Go `map[string]V` is modelled by the list of its key/value pairs (its
graph); a value that actually arises from a Go map has pairwise distinct
keys. Equality of Go maps (`reflect.DeepEqual`) is equality of graphs,
i.e. extensional equality of the lookup functions. -/

/-- Lookup in the graph of a Go map: `m[k]` returns `(v, true)` when present
(the first matching key wins; for graphs with distinct keys the order is
immaterial). -/
def mapLookup {V : Type} : List (String × V) → String → Option V
  | [], _ => none
  | p :: rest, k => if p.1 == k then some p.2 else mapLookup rest k

/-- Go map assignment `m[k] = v`: overwrite if the key is present, else add. -/
def mapSet {V : Type} (m : List (String × V)) (k : String) (v : V) : List (String × V) :=
  if m.any (fun p => p.1 == k) then
    m.map (fun p => if p.1 == k then (p.1, v) else p)
  else
    m ++ [(k, v)]

/-- Embedding of `reflect.DeepEqual` on two Go `map[string]bool` graphs: the same keys are
present and they map to the same values. -/
def mapEquiv (m₁ m₂ : List (String × Bool)) : Bool :=
  m₁.all (fun p => mapLookup m₂ p.1 == some p.2) &&
  m₂.all (fun p => mapLookup m₁ p.1 == some p.2)

/-! ## Go string ordering (`sort.Strings`) -/

/-- Lexicographic comparison of rune lists by code point, the order used by
Go's `sort.Strings` (byte-wise comparison of UTF-8 strings agrees with
code-point-wise comparison). -/
def lexLe : List Char → List Char → Bool
  | [], _ => true
  | _ :: _, [] => false
  | a :: as, b :: bs =>
      if a.toNat < b.toNat then true
      else if b.toNat < a.toNat then false
      else lexLe as bs

/-- The order on strings used by Go's `sort.Strings`. -/
def strLe (a b : String) : Bool := lexLe a.data b.data

/-! ## internal/core/group.go -/

/-- Embedding of `core.GroupMemberNames`, a Go `map[string]bool`, as its graph. -/
abbrev GroupMemberNames : Type := List (String × Bool)

/-- Embedding of `GroupMemberNames.MarshalJSON` produces (the JSON encoding of) this list:
collect the names mapped to `true`, then `sort.Strings`. We model the result
as the list of strings in the emitted JSON array. (`sort.Strings` sorts
ascending in the byte-wise order `strLe`; since that order is antisymmetric
on strings, every correct sort returns the same list, and we use insertion
sort.) -/
def GroupMemberNames.marshalJSON (g : GroupMemberNames) : List String :=
  List.insertionSort (fun a b => strLe a b = true)
    ((List.filter (fun p => p.2) g).map (fun p => p.1))

/-- Embedding of `GroupMemberNames.UnmarshalJSON`: build a fresh map and set each listed
name to `true`. -/
def GroupMemberNames.unmarshalJSON (names : List String) : GroupMemberNames :=
  names.foldl (fun m n => mapSet m n true) []

/-- Modelled from the spec: `PortunusPermissions` (the `is_admin` flag); the
defining Go file is not among the sources, but `selfservice.go` reads
`user.Perms.Portunus.IsAdmin`. -/
structure PortunusPermissions where
  isAdmin : Bool
  deriving DecidableEq, Repr

/-- Modelled from the spec: `LDAPPermissions` (the `can_read_ldap` flag). -/
structure LDAPPermissions where
  canRead : Bool
  deriving DecidableEq, Repr

/-- Modelled from the spec: `core.Permissions`, the record of permission
flags attached to a group (§3 of the spec). -/
structure Permissions where
  portunus : PortunusPermissions
  ldap : LDAPPermissions
  deriving DecidableEq, Repr

/-- Modelled from the spec: the `core.Engine` interface reference held in
`Group.Engine`. Only its reference identity matters to the properties at
hand (a Go interface value is `nil` or a reference), so it is modelled as
`Option Nat`. -/
abbrev EngineRef : Type := Option Nat

/-- Embedding of `core.Group` from group.go: name, long name, member map, permissions,
and the (JSON-ignored) engine reference. -/
structure Group where
  name : String
  longName : String
  memberLoginNames : GroupMemberNames
  permissions : Permissions
  engine : EngineRef
  deriving DecidableEq

/-- Modelled from the spec: `core.UserPosixAttributes` (uid, gid, home
path, login shell, gecos); the defining Go file is not among the sources. -/
structure UserPosix where
  uid : Nat
  gid : Nat
  homePath : String
  loginShell : String
  gecos : String
  deriving DecidableEq

/-- Modelled from the spec: `core.User` (§3 of the spec); the defining Go
file is not among the sources. -/
structure User where
  loginName : String
  givenName : String
  familyName : String
  email : String
  sshPublicKeys : List String
  passwordHash : String
  posix : Option UserPosix
  deriving DecidableEq

/-- The `core.Entity` interface: its implementations are `User` and `Group`. -/
inductive Entity where
  | user (u : User)
  | group (g : Group)

/-- Embedding of `reflect.DeepEqual` on `core.Group` values: all fields are compared,
with the member map compared as a map (graph equality). -/
def Group.deepEqual (a b : Group) : Bool :=
  a.name == b.name && a.longName == b.longName &&
  mapEquiv a.memberLoginNames b.memberLoginNames &&
  a.permissions == b.permissions &&
  decide (a.engine = b.engine)

/-- Embedding of `Group.IsEqualTo` from group.go: a non-`Group` entity is never equal;
for two groups, both `Engine` fields are set to `nil` and the rest is
compared with `reflect.DeepEqual`. -/
def Group.isEqualTo (g : Group) (other : Entity) : Bool :=
  match other with
  | .group rhs => Group.deepEqual { g with engine := none } { rhs with engine := none }
  | _ => false

/-- Embedding of `goldap.Attribute`: an attribute type together with its values. -/
structure LDAPAttribute where
  typ : String
  vals : List String
  deriving DecidableEq

/-- Embedding of `mkAttr` (helper used by `RenderToLDAP`): builds a `goldap.Attribute`. -/
def mkAttr (typ : String) (vals : List String) : LDAPAttribute :=
  { typ := typ, vals := vals }

/-- Embedding of `goldap.AddRequest`: a DN plus a list of attributes. -/
structure AddRequest where
  dn : String
  attributes : List LDAPAttribute
  deriving DecidableEq

/-- The member DNs computed inside `Group.RenderToLDAP`: one
`uid=<login>,ou=users,<suffix>` per name mapped to `true`. (Go iterates the
map in unspecified order; the embedding uses the graph order.) -/
def Group.memberDNames (g : Group) (suffix : String) : List String :=
  (List.filter (fun p => p.2) g.memberLoginNames).map
    (fun p => "uid=" ++ p.1 ++ ",ou=users," ++ suffix)

/-- Embedding of `Group.RenderToLDAP` from group.go: an add request at
`cn=<name>,ou=groups,<suffix>` with attributes `cn`, `member` and
`objectClass {groupOfNames, top}`. (Making the group a posixGroup with a
gidNumber attribute is an unimplemented TODO in the source; `Group` has no
posix gid field.) -/
def Group.renderToLDAP (g : Group) (suffix : String) : AddRequest :=
  { dn := "cn=" ++ g.name ++ ",ou=groups," ++ suffix,
    attributes := [
      mkAttr "cn" [g.name],
      mkAttr "member" (g.memberDNames suffix),
      mkAttr "objectClass" ["groupOfNames", "top"]
    ] }

/-! ## internal/html (package h): SelectFieldSpec.ReadState -/

/-- Embedding of `h.SelectOptionSpec`: an option that can be selected in a
`SelectFieldSpec`. -/
structure SelectOptionSpec where
  value : String
  label : String
  deriving DecidableEq

/-- Embedding of `h.SelectFieldSpec`: a form field whose values are selected from a
given set of options. -/
structure SelectFieldSpec where
  name : String
  label : String
  options : List SelectOptionSpec
  readOnly : Bool
  deriving DecidableEq

/-- Modelled from the spec: `h.FieldState` (its defining Go file is not among
the sources; `ReadState` populates its `Selected` map and `ErrorMessage`). -/
structure FieldState where
  selected : List (String × Bool)
  errorMessage : String
  deriving DecidableEq

/-- Modelled from the spec: `h.FormState`, a map from field name to field
state (its defining Go file is not among the sources). -/
structure FormState where
  fields : List (String × FieldState)
  deriving DecidableEq

/-- Embedding of `fmt.Sprintf("does not have the option %q", value)`. The `%q` verb
quotes the value; escaping of exotic characters inside the value is
irrelevant to the properties proved here. -/
def optionErrorMessage (value : String) : String :=
  "does not have the option \"" ++ value ++ "\""

/-- The `isValidValue` map built at the top of `ReadState`: every declared
option value maps to `true`. -/
def SelectFieldSpec.isValidValueMap (f : SelectFieldSpec) : List (String × Bool) :=
  f.options.foldl (fun m o => mapSet m o.value true) []

/-- One iteration of `ReadState`'s loop over the posted values: mark the
value selected, and remember an error message if it is not a declared
option. -/
def readStateStep (isValidValue : List (String × Bool)) (s : FieldState) (value : String) :
    FieldState :=
  { s with
    selected := mapSet s.selected value true,
    errorMessage :=
      if (mapLookup isValidValue value).getD false then s.errorMessage
      else optionErrorMessage value }

/-- Embedding of `SelectFieldSpec.ReadState` from the source: a read-only field ignores
the request entirely; otherwise the posted values for `f.Name` are recorded
as selected one by one, remembering an error message whenever a posted
value is not a declared option, and the resulting field state is stored in
`formState.Fields[f.Name]`. -/
def SelectFieldSpec.readState (f : SelectFieldSpec) (postForm : String → List String)
    (formState : FormState) : FormState :=
  if f.readOnly then formState
  else
    let s := (postForm f.name).foldl (readStateStep f.isValidValueMap)
      { selected := [], errorMessage := "" }
    { formState with fields := mapSet formState.fields f.name s }

/-! ### Fixtures used by witness theorems -/

/-- A concrete option list for exercising `ReadState`. -/
def sampleOptions : List SelectOptionSpec := [⟨"a", "A"⟩, ⟨"b", "B"⟩]

/-- A concrete writable select field. -/
def sampleSelectField : SelectFieldSpec := ⟨"perms", "Permissions", sampleOptions, false⟩

/-- The same field marked read-only. -/
def sampleSelectFieldRO : SelectFieldSpec := ⟨"perms", "Permissions", sampleOptions, true⟩

/-- A posted form: `perms=a&perms=c` (`c` is not a declared option). -/
def samplePostForm : String → List String :=
  fun k => if k = "perms" then ["a", "c"] else []

/-- An empty form state. -/
def emptyFormState : FormState := ⟨[]⟩

/-! ## internal/core: Database, seed, and the Nexus (part of package core)

The `Database`, `DatabaseSeed` and `Engine` definitions are in Go files not
among the sources; they are modelled from the spec below. The Nexus itself
(`nexus.go`) is among the sources and is embedded faithfully. -/

/-- Embedding of `core.FieldRef` from validation.go: identifies a field within a User or
Group. -/
structure FieldRef where
  objectType : String
  objectName : String
  fieldName : String
  deriving DecidableEq

/-- Embedding of `core.ValidationError` from validation.go: a field reference together
with the field error (modelled by its message). -/
structure ValidationError where
  fieldRef : FieldRef
  fieldError : String
  deriving DecidableEq

/-- Modelled from the spec: `core.Database`, the plain value holding all
users and groups (§4.1); its defining Go file is not among the sources. -/
structure Database where
  users : List User
  groups : List Group
  deriving DecidableEq

/-- Modelled from the spec: `Database.Cloned()` returns a deep copy. Deep
copies of a pure value are the value itself in this embedding. -/
def Database.cloned (db : Database) : Database := db

/-- Modelled from the spec: `Database.IsEmpty()`. -/
def Database.isEmpty (db : Database) : Bool :=
  db.users.isEmpty && db.groups.isEmpty

/-- Modelled from the spec: member-set normalization — sorted and
de-duplicated (§3, §4.1). Canonical form of the member map: sorted keys,
each mapped to `true`, `false` entries dropped. -/
def Group.normalizeMembers (g : Group) : Group :=
  { g with memberLoginNames :=
      (GroupMemberNames.marshalJSON g.memberLoginNames).map (fun n => (n, true)) }

/-- Modelled from the spec: `Database.Normalize()` — both collections sorted
by key, member sets sorted and de-duplicated (§4.1). -/
def Database.normalize (db : Database) : Database :=
  { users := List.insertionSort (fun a b => strLe a.loginName b.loginName = true) db.users,
    groups := List.insertionSort (fun a b => strLe a.name b.name = true)
      (db.groups.map Group.normalizeMembers) }

/-- Modelled from the spec: a seeded user — the login name is the key and
every present optional field is pinned (§4.2, §6). -/
structure SeedUser where
  loginName : String
  givenName : Option String
  familyName : Option String
  email : Option String
  passwordHash : Option String
  sshPublicKeys : Option (List String)
  posix : Option UserPosix
  deriving DecidableEq

/-- Modelled from the spec: a seeded group — the name is the key and every
present optional field is pinned (§4.2, §6). -/
structure SeedGroup where
  name : String
  longName : Option String
  memberLoginNames : Option (List String)
  permissions : Option Permissions
  deriving DecidableEq

/-- Modelled from the spec: `core.DatabaseSeed`, the declarative overlay
loaded at startup (§4.2); its defining Go file is not among the sources. -/
structure DatabaseSeed where
  users : List SeedUser
  groups : List SeedGroup
  deriving DecidableEq

/-- A disagreement error for one pinned field, as produced by
`CheckConflicts`: kind, name and field of the offending entity. -/
def seedConflict (objectType objectName fieldName : String) : ValidationError :=
  ⟨⟨objectType, objectName, fieldName⟩, "is pinned by the seed"⟩

/-- Checks one pinned field of a seeded user against the actual value. -/
def seedFieldCheck {α : Type} [DecidableEq α] (objectType objectName fieldName : String)
    (pin : Option α) (actual : α) : List ValidationError :=
  match pin with
  | none => []
  | some v => if v = actual then [] else [seedConflict objectType objectName fieldName]

/-- Modelled from the spec: the per-user part of `CheckConflicts` — one
structured error per seeded-field disagreement; a missing seeded entity is
reported on its key field (§4.2). -/
def SeedUser.conflicts (su : SeedUser) (db : Database) : List ValidationError :=
  match db.users.find? (fun u => u.loginName == su.loginName) with
  | none => [seedConflict "user" su.loginName "login_name"]
  | some u =>
      seedFieldCheck "user" su.loginName "given_name" su.givenName u.givenName ++
      seedFieldCheck "user" su.loginName "family_name" su.familyName u.familyName ++
      seedFieldCheck "user" su.loginName "email" su.email u.email ++
      seedFieldCheck "user" su.loginName "password" su.passwordHash u.passwordHash ++
      seedFieldCheck "user" su.loginName "ssh_public_keys" su.sshPublicKeys u.sshPublicKeys ++
      (match su.posix with
       | none => []
       | some p =>
          if some p = u.posix then [] else [seedConflict "user" su.loginName "posix"])

/-- Modelled from the spec: the per-group part of `CheckConflicts` (§4.2).
The pinned member list is compared against the sorted member names of the
actual group. -/
def SeedGroup.conflicts (sg : SeedGroup) (db : Database) : List ValidationError :=
  match db.groups.find? (fun g => g.name == sg.name) with
  | none => [seedConflict "group" sg.name "name"]
  | some g =>
      seedFieldCheck "group" sg.name "long_name" sg.longName g.longName ++
      seedFieldCheck "group" sg.name "members" sg.memberLoginNames
        (GroupMemberNames.marshalJSON g.memberLoginNames) ++
      seedFieldCheck "group" sg.name "permissions" sg.permissions g.permissions

/-- Modelled from the spec: `DatabaseSeed.CheckConflicts(db)` — for each
seeded entity/field disagreement, a structured error identifying
(kind, name, field) (§4.2). -/
def DatabaseSeed.checkConflicts (seed : DatabaseSeed) (db : Database) : List ValidationError :=
  (seed.users.map (fun su => su.conflicts db)).flatten ++
  (seed.groups.map (fun sg => sg.conflicts db)).flatten

/-- Modelled from the spec: force the pinned fields of one existing user to
their seed values. -/
def SeedUser.applyToUser (su : SeedUser) (u : User) : User :=
  { u with
    givenName := su.givenName.getD u.givenName,
    familyName := su.familyName.getD u.familyName,
    email := su.email.getD u.email,
    passwordHash := su.passwordHash.getD u.passwordHash,
    sshPublicKeys := su.sshPublicKeys.getD u.sshPublicKeys,
    posix := match su.posix with | some p => some p | none => u.posix }

/-- Modelled from the spec: the user inserted for a missing seeded entity —
declared fields pinned, the rest zero values. -/
def SeedUser.toNewUser (su : SeedUser) : User :=
  { loginName := su.loginName,
    givenName := su.givenName.getD "",
    familyName := su.familyName.getD "",
    email := su.email.getD "",
    sshPublicKeys := su.sshPublicKeys.getD [],
    passwordHash := su.passwordHash.getD "",
    posix := su.posix }

/-- Modelled from the spec: force the pinned fields of one existing group to
their seed values. -/
def SeedGroup.applyToGroup (sg : SeedGroup) (g : Group) : Group :=
  { g with
    longName := sg.longName.getD g.longName,
    memberLoginNames :=
      match sg.memberLoginNames with
      | some names => names.map (fun n => (n, true))
      | none => g.memberLoginNames,
    permissions := sg.permissions.getD g.permissions }

/-- Modelled from the spec: the group inserted for a missing seeded entity. -/
def SeedGroup.toNewGroup (sg : SeedGroup) : Group :=
  { name := sg.name,
    longName := sg.longName.getD "",
    memberLoginNames := (sg.memberLoginNames.getD []).map (fun n => (n, true)),
    permissions := sg.permissions.getD ⟨⟨false⟩, ⟨false⟩⟩,
    engine := none }

/-- Modelled from the spec: `DatabaseSeed.ApplyTo(&db)` — forces every
seeded field to its seed value, inserts missing seeded entities with their
declared fields, never deletes non-seeded entities (§4.2). -/
def DatabaseSeed.applyTo (seed : DatabaseSeed) (db : Database) : Database :=
  { users :=
      db.users.map (fun u =>
        match seed.users.find? (fun su => su.loginName == u.loginName) with
        | some su => su.applyToUser u
        | none => u) ++
      (seed.users.filter
        (fun su => !(db.users.any (fun u => u.loginName == su.loginName)))).map
        SeedUser.toNewUser,
    groups :=
      db.groups.map (fun g =>
        match seed.groups.find? (fun sg => sg.name == g.name) with
        | some sg => sg.applyToGroup g
        | none => g) ++
      (seed.groups.filter
        (fun sg => !(db.groups.any (fun g => g.name == sg.name)))).map
        SeedGroup.toNewGroup }

/-! ### The Nexus (nexus.go, embedded from the source) -/

/-- Embedding of `core.Reducer`: `func(Database) (Database, error)` — returns the new
database or an error (modelled by its message). -/
def Reducer : Type := Database → Except String Database

/-- Embedding of `core.UpdateOptions`. -/
structure UpdateOptions where
  conflictWithSeedIsError : Bool
  deriving DecidableEq

/-- A registered listener: its cancellation context (has it expired?) and an
identifier standing for the Go callback. Invoking a callback is recorded as
a notification `(id, database clone)` in the returned notification list. -/
structure Listener where
  ctxExpired : Bool
  id : Nat
  deriving DecidableEq

/-- The fields of `nexusImpl` guarded by its mutex. -/
structure NexusState where
  seed : Option DatabaseSeed
  db : Database
  listeners : List Listener
  deriving DecidableEq

/-- Embedding of `nexusImpl.AddListener`: append the listener; if the database is already
populated and the context has not expired, fire the callback once with a
clone. The second component is the list of callback invocations performed
during the call. -/
def nexusAddListener (n : NexusState) (ctxExpired : Bool) (id : Nat) :
    NexusState × List (Nat × Database) :=
  let n' := { n with listeners := n.listeners ++ [⟨ctxExpired, id⟩] }
  if !n.db.isEmpty && !ctxExpired then
    (n', [(id, n.db.cloned)])
  else
    (n', [])

/-- The `errext.ErrorSet` entries `nexusImpl.Update` can accumulate. -/
inductive UpdateError where
  | validation (ve : ValidationError)
  | reducerFailed (msg : String)
  deriving DecidableEq

/-- Seed enforcement in `nexusImpl.Update`: with
`opts.ConflictWithSeedIsError` the candidate is left alone (only checked),
otherwise `ApplyTo` corrects it silently. -/
def applySeedPolicy (seed : Option DatabaseSeed) (conflictIsError : Bool)
    (d : Database) : Database :=
  match seed with
  | some s => if conflictIsError then d else s.applyTo d
  | none => d

/-- The errors `CheckConflicts` contributes inside `nexusImpl.Update` when
`opts.ConflictWithSeedIsError` is set. The source stores them into the named
return `errs`, but both subsequent exits are `return nil`, so they are never
returned to the caller. -/
def seedConflictErrors (seed : Option DatabaseSeed) (conflictIsError : Bool)
    (d : Database) : List UpdateError :=
  match seed with
  | some s =>
      if conflictIsError then (s.checkConflicts d).map UpdateError.validation else []
  | none => []

/-- Embedding of `nexusImpl.Update`, mirrored from the source: clone, reduce, normalize,
enforce the seed, then either stop on structural equality or commit and
notify the listeners whose context has not expired. Returns the new state,
the returned error set, and the list of callback invocations `(id, clone)`.
Note the two final exits of the source both `return nil`, so the error set
computed by `CheckConflicts` (`seedConflictErrors` above) is dropped. -/
def nexusUpdate (n : NexusState) (reducer : Reducer) (optsPtr : Option UpdateOptions) :
    NexusState × List UpdateError × List (Nat × Database) :=
  let opts := optsPtr.getD ⟨false⟩
  match reducer n.db.cloned with
  | .error e => (n, [UpdateError.reducerFailed e], [])
  | .ok d =>
      let newDB := (applySeedPolicy n.seed opts.conflictWithSeedIsError d.normalize)
      if n.db = newDB then
        (n, [], [])
      else
        ({ n with db := newDB }, [],
          (n.listeners.filter (fun l => !l.ctxExpired)).map
            (fun l => (l.id, newDB.cloned)))

/-! ### Fixtures for the Nexus claims -/

/-- The seeded administrator: `given_name` pinned to "A". -/
def seedAdmin : SeedUser :=
  { loginName := "admin", givenName := some "A", familyName := none,
    email := none, passwordHash := none, sshPublicKeys := none, posix := none }

/-- A seed pinning `admin.given_name = "A"`. -/
def sampleSeed : DatabaseSeed := { users := [seedAdmin], groups := [] }

/-- The admin user as stored in the database, agreeing with the seed. -/
def adminUser : User :=
  { loginName := "admin", givenName := "A", familyName := "D", email := "",
    sshPublicKeys := [], passwordHash := "x", posix := none }

/-- A database holding only the admin user. -/
def adminDB : Database := { users := [adminUser], groups := [] }

/-- A nexus holding `adminDB` with the seed loaded and one live listener. -/
def sampleNexus : NexusState :=
  { seed := some sampleSeed, db := adminDB, listeners := [⟨false, 0⟩] }

/-- A reducer changing the pinned field `admin.given_name` to "B". -/
def renameAdminReducer : Reducer :=
  fun d => .ok { d with users := (d.users.map
    (fun u => if u.loginName == "admin" then { u with givenName := "B" } else u)) }

/-- The user `bob` with `posix.gid = 1001`. -/
def bobUser : User :=
  { loginName := "bob", givenName := "B", familyName := "O", email := "",
    sshPublicKeys := [], passwordHash := "y",
    posix := some { uid := 1000, gid := 1001, homePath := "/home/bob",
                    loginShell := "", gecos := "" } }

/-- A nexus with no seed, an empty database and one live listener. -/
def emptyNexus : NexusState :=
  { seed := none, db := { users := [], groups := [] }, listeners := [⟨false, 0⟩] }

/-- A reducer that inserts `bob` (whose posix gid 1001 matches no group). -/
def addBobReducer : Reducer :=
  fun d => .ok { d with users := d.users ++ [bobUser] }

/-- The admin user after the pinned field was changed to "B". -/
def renamedAdminUser : User := { adminUser with givenName := "B" }

/-- The candidate database produced by `renameAdminReducer` (already in
normal form). It disagrees with the seed on `admin.given_name`. -/
def renamedDB : Database := { users := [renamedAdminUser], groups := [] }

/-- The database after `addBobReducer` ran on the empty database. -/
def bobDB : Database := { users := [bobUser], groups := [] }

/-- The identity reducer: returns its input unchanged. -/
def idReducer : Reducer := fun d => .ok d

/-! ## cmd/portunus-server: slapd configuration rendering -/

/-- A word character for Go's regexp `\\w`: `[0-9A-Za-z_]`. -/
def isWordChar (c : Char) : Bool :=
  (('0' ≤ c && c ≤ '9') || ('A' ≤ c && c ≤ 'Z') || ('a' ≤ c && c ≤ 'z') || c = '_')

/-- The slapd configuration template (`configTemplate` in the source), with
`%NAME%` placeholders. -/
def configTemplate : String :=
  "\ninclude %PORTUNUS_SLAPD_SCHEMA_DIR%/core.schema\ninclude %PORTUNUS_SLAPD_SCHEMA_DIR%/cosine.schema\ninclude %PORTUNUS_SLAPD_SCHEMA_DIR%/inetorgperson.schema\ninclude %PORTUNUS_SLAPD_SCHEMA_DIR%/nis.schema\n\ninclude %PORTUNUS_SLAPD_STATE_DIR%/portunus.schema\n\naccess to dn.base=\"\" by * read\naccess to dn.base=\"cn=Subschema\" by * read\n\naccess to *\n\tby dn.base=\"cn=portunus,%PORTUNUS_LDAP_SUFFIX%\" write\n\tby group.exact=\"cn=portunus-viewers,%PORTUNUS_LDAP_SUFFIX%\" read\n\tby self read\n\tby anonymous auth\n\nTLSCACertificateFile  \"%PORTUNUS_SLAPD_STATE_DIR%/ca.pem\"\nTLSCertificateFile    \"%PORTUNUS_SLAPD_STATE_DIR%/cert.pem\"\nTLSCertificateKeyFile \"%PORTUNUS_SLAPD_STATE_DIR%/key.pem\"\nTLSProtocolMin 3.3\n\ndatabase   mdb\nmaxsize    1073741824\nsuffix     \"%PORTUNUS_LDAP_SUFFIX%\"\nrootdn     \"cn=portunus,%PORTUNUS_LDAP_SUFFIX%\"\nrootpw     \"%PORTUNUS_LDAP_PASSWORD_HASH%\"\ndirectory  \"%PORTUNUS_SLAPD_STATE_DIR%/data\"\n\nindex objectClass eq\n"

/-- One pass of `regexp.MustCompile("%\\w+%").ReplaceAllStringFunc` over a rune
list: at each `%` a maximal non-empty run of word characters followed by a
closing `%` is a match and is replaced by the environment value of the
enclosed name; everything else is copied. The fuel argument (instantiated
with the input length) only serves termination: every step consumes at
least one rune. -/
def substAux (env : String → String) : Nat → List Char → List Char
  | 0, l => l
  | _ + 1, [] => []
  | fuel + 1, c :: rest =>
      if c = '%' then
        let w := rest.takeWhile isWordChar
        let rest' := rest.dropWhile isWordChar
        if w ≠ [] ∧ rest'.head? = some '%' then
          (env (String.mk w)).data ++ substAux env fuel rest'.tail
        else
          '%' :: substAux env fuel rest
      else
        c :: substAux env fuel rest

/-- Placeholder substitution on strings (the `ReplaceAllStringFunc` call in
`renderSlapdConfig`, including the `%`-trimming of the matched name). -/
def substPlaceholders (env : String → String) (s : String) : String :=
  String.mk (substAux env s.data.length s.data)

/-- Does the rune list start with `TLS`? -/
def startsWithTLS (l : List Char) : Bool :=
  List.isPrefixOf "TLS".data l

/-- Split a rune list into its lines (separator `\n`). -/
def splitLines (l : List Char) : List (List Char) :=
  l.foldr
    (fun c acc =>
      match acc with
      | cur :: rest => if c = '\n' then [] :: cur :: rest else (c :: cur) :: rest
      | [] => [[c]])
    [[]]

/-- Join lines back with `\n` separators. -/
def joinLines : List (List Char) → List Char
  | [] => []
  | [l] => l
  | l :: ls => l ++ '\n' :: joinLines ls

/-- Embedding of `regexp.MustCompile("(?m)^TLS.*$").ReplaceAllString(config, "")`: every
line beginning with `TLS` is replaced by an empty line. -/
def stripTLSLines (l : List Char) : List Char :=
  joinLines ((splitLines l).map (fun ln => if startsWithTLS ln then [] else ln))

/-- Functional update of an environment map (`environment[k] = v`). -/
def envUpdate (env : String → String) (k v : String) : String → String :=
  fun q => if q = k then v else env q

/-- The environment after `renderSlapdConfig` stored the generated service
user password and its hash. -/
def slapdEnv (environment : String → String) (password passwordHash : String) :
    String → String :=
  envUpdate (envUpdate environment "PORTUNUS_LDAP_PASSWORD" password)
    "PORTUNUS_LDAP_PASSWORD_HASH" passwordHash

/-- Embedding of `renderSlapdConfig` from the source. The randomly generated service-user
password and its hash are passed as parameters (`generateServiceUserPassword`
draws from `crypto/rand`; the hash comes from the `PasswordHasher`); the
environment is a total map, absent keys being the empty string as in Go.
When `PORTUNUS_SLAPD_TLS_CERTIFICATE` is empty, the TLS lines of the
template are stripped before the placeholders are substituted. -/
def renderSlapdConfig (environment : String → String) (password passwordHash : String) :
    String :=
  let env := slapdEnv environment password passwordHash
  let config := configTemplate.data
  let config :=
    if environment "PORTUNUS_SLAPD_TLS_CERTIFICATE" = "" then stripTLSLines config
    else config
  String.mk (substAux env config.length config)

/-- No line of the rune list begins with `TLS`: checked at the start and
after every newline. -/
def afterNLOk : List Char → Bool
  | [] => true
  | c :: rest =>
      (if c = '\n' then !startsWithTLS rest && afterNLOk rest else afterNLOk rest)

/-- The configuration property claimed for the TLS-less case: no line
begins with `TLS`. -/
def noTLSLines (l : List Char) : Bool :=
  !startsWithTLS l && afterNLOk l

/-- The invariant that makes `noTLSLines` survive substitution: after every
newline the next rune is neither `%` (no placeholder starts a line) nor `T`
(no line can begin with TLS, whatever follows). -/
def lineStartSafe : List Char → Bool
  | [] => true
  | d :: _ => !(d = '%') && !(d = 'T')

/-- Requires `lineStartSafe` after every newline. -/
def tailOk : List Char → Bool
  | [] => true
  | c :: rest => (if c = '\n' then lineStartSafe rest else true) && tailOk rest

/-- A string with no newline rune (the condition on substituted environment
values under which TLS stripping is conclusive). -/
def noNewline (s : String) : Bool :=
  s.data.all (fun c => !(c = '\n'))

/-- An adversarial environment: the schema directory value smuggles in a
line that begins with TLS. -/
def evilEnv : String → String :=
  fun k => if k = "PORTUNUS_SLAPD_SCHEMA_DIR" then "x\nTLSpwn" else ""

/-- An environment with a TLS certificate configured. -/
def certEnv : String → String :=
  fun k => if k = "PORTUNUS_SLAPD_TLS_CERTIFICATE" then "cert" else ""

/-! ### Helper lemmas about trimming -/

theorem dropWhile_cons_head_false {α : Type} {p : α → Bool} :
    ∀ {l : List α} {y : α} {ys : List α}, l.dropWhile p = y :: ys → p y = false := by
  intro l
  induction l with
  | nil => intro y ys h; cases h
  | cons a as ih =>
      intro y ys h
      by_cases hp : p a
      · rw [List.dropWhile_cons, if_pos (by simpa using hp)] at h
        exact ih h
      · rw [List.dropWhile_cons, if_neg (by simpa using hp)] at h
        cases h
        simpa using hp

theorem goTrimSpace_eq_nil_iff (l : List Char) :
    goTrimSpace l = [] ↔ ∀ c ∈ l, goIsSpace c := by
  unfold goTrimSpace
  constructor
  · intro h
    have h1 : (l.dropWhile goIsSpace).reverse.dropWhile goIsSpace = [] :=
      List.reverse_eq_nil_iff.mp h
    rw [List.dropWhile_eq_nil_iff] at h1
    have h2 : ∀ x ∈ l.dropWhile goIsSpace, goIsSpace x := by
      intro x hx
      exact h1 x (List.mem_reverse.mpr hx)
    rcases hdw : l.dropWhile goIsSpace with _ | ⟨y, ys⟩
    · exact List.dropWhile_eq_nil_iff.mp hdw
    · have hy : goIsSpace y = false := dropWhile_cons_head_false hdw
      have : goIsSpace y = true := h2 y (by rw [hdw]; simp)
      rw [hy] at this
      cases this
  · intro h
    have : l.dropWhile goIsSpace = [] :=
      List.dropWhile_eq_nil_iff.mpr (by intro x hx; exact h x hx)
    simp [this]

theorem MustNotBeEmpty_eq_iff (val : String) :
    MustNotBeEmpty val = some .errIsMissing ↔ ∀ c ∈ val.data, goIsSpace c := by
  unfold MustNotBeEmpty
  by_cases h : goTrimSpace val.data = []
  · rw [if_pos h]
    constructor
    · intro _
      exact (goTrimSpace_eq_nil_iff val.data).mp h
    · intro _
      rfl
  · simp only [if_neg h]
    constructor
    · intro hx; cases hx
    · intro hall
      exact absurd ((goTrimSpace_eq_nil_iff val.data).mpr hall) h

/-- C8: `MustNotBeEmpty` returns the "is missing" error exactly when the input
trimmed of white space is empty; in particular every string consisting solely
of white space (the empty string included) is rejected as missing. Since
`errIsMissing` is the only error `MustNotBeEmpty` can produce, a
whitespace-only value is reported as missing rather than as having
surrounding spaces. -/
theorem C8_MustNotBeEmpty_whitespace_only (val : String) :
    (MustNotBeEmpty val = some .errIsMissing ↔ goTrimSpace val.data = []) ∧
    ((∀ c ∈ val.data, goIsSpace c) → MustNotBeEmpty val = some .errIsMissing) := by
  constructor
  · rw [MustNotBeEmpty_eq_iff]
    exact (goTrimSpace_eq_nil_iff val.data).symm
  · intro hall
    exact (MustNotBeEmpty_eq_iff val).mpr hall

/-- Witness for C8: the whitespace-only string " \t " is reported as missing. -/
theorem C8_MustNotBeEmpty_whitespace_only_witness :
    MustNotBeEmpty " \t " = some .errIsMissing :=
  (C8_MustNotBeEmpty_whitespace_only " \t ").2 (by decide)

/-! ### The Go string order is transitive and total -/

theorem lexLe_total : ∀ a b : List Char, (lexLe a b || lexLe b a) = true := by
  intro a
  induction a with
  | nil => intro b; simp [lexLe]
  | cons x xs ih =>
      intro b
      cases b with
      | nil => simp [lexLe]
      | cons y ys =>
          simp only [lexLe]
          rcases Nat.lt_trichotomy x.toNat y.toNat with h | h | h
          · simp [h]
          · simp only [h, lt_irrefl, if_false]
            exact ih ys
          · simp [h, Nat.lt_asymm h]

theorem lexLe_trans :
    ∀ a b c : List Char, lexLe a b = true → lexLe b c = true → lexLe a c = true := by
  intro a
  induction a with
  | nil => intro b c _ _; simp [lexLe]
  | cons x xs ih =>
      intro b c hab hbc
      cases b with
      | nil => simp [lexLe] at hab
      | cons y ys =>
          cases c with
          | nil => simp [lexLe] at hbc
          | cons z zs =>
              simp only [lexLe] at hab hbc ⊢
              by_cases hxy : x.toNat < y.toNat
              · by_cases hyz : y.toNat < z.toNat
                · simp [Nat.lt_trans hxy hyz]
                · simp only [hyz, if_false] at hbc
                  by_cases hzy : z.toNat < y.toNat
                  · simp [hzy] at hbc
                  · have : y.toNat = z.toNat := by omega
                    simp [this ▸ hxy]
              · simp only [hxy, if_false] at hab
                by_cases hyx : y.toNat < x.toNat
                · simp [hyx] at hab
                · rw [if_neg hyx] at hab
                  have hxyeq : x.toNat = y.toNat := by omega
                  by_cases hyz : y.toNat < z.toNat
                  · simp [hxyeq ▸ hyz]
                  · simp only [hyz, if_false] at hbc
                    by_cases hzy : z.toNat < y.toNat
                    · simp [hzy] at hbc
                    · rw [if_neg hzy] at hbc
                      have hyzeq : y.toNat = z.toNat := by omega
                      have h1 : ¬ x.toNat < z.toNat := by omega
                      have h2 : ¬ z.toNat < x.toNat := by omega
                      simp only [h1, h2, if_false]
                      exact ih ys zs hab hbc

theorem strLe_total : ∀ a b : String, (strLe a b || strLe b a) = true := by
  intro a b; exact lexLe_total a.data b.data

theorem strLe_trans :
    ∀ a b c : String, strLe a b = true → strLe b c = true → strLe a c = true := by
  intro a b c; exact lexLe_trans a.data b.data c.data

/-! ### Go map lemmas -/

theorem mapLookup_eq_of_nodupKeys :
    ∀ {V : Type} {m : List (String × V)} {k : String} {v : V},
      (m.map Prod.fst).Nodup → (k, v) ∈ m →
      mapLookup m k = some v := by
  intro V m
  induction m with
  | nil => intro k v _ hmem; cases hmem
  | cons a tl ih =>
      intro k v hnd hmem
      rw [List.map_cons, List.nodup_cons] at hnd
      rcases List.mem_cons.mp hmem with heq | htl
      · subst heq
        simp [mapLookup]
      · have hka : a.1 ≠ k := by
          intro hak
          exact hnd.1 (hak ▸ (List.mem_map.mpr ⟨(k, v), htl, rfl⟩))
        rw [mapLookup, if_neg (by simpa using hka)]
        exact ih hnd.2 htl

theorem mem_eq_of_nodupKeys {V : Type} {m : List (String × V)} {p q : String × V}
    (hnd : (m.map Prod.fst).Nodup) (hp : p ∈ m) (hq : q ∈ m) (hk : p.1 = q.1) :
    p = q := by
  have h1 : mapLookup m p.1 = some p.2 := mapLookup_eq_of_nodupKeys hnd (by exact hp)
  have h2 : mapLookup m q.1 = some q.2 := mapLookup_eq_of_nodupKeys hnd (by exact hq)
  rw [hk] at h1
  rw [h1] at h2
  have hv : p.2 = q.2 := Option.some.inj h2
  cases p
  cases q
  simp only [Prod.mk.injEq]
  exact ⟨hk, hv⟩

theorem foldl_mapSet_of_nodup :
    ∀ (ns : List String) (acc : List (String × Bool)),
      ns.Nodup → (∀ n ∈ ns, ∀ v : Bool, (n, v) ∉ acc) →
      ns.foldl (fun m n => mapSet m n true) acc = acc ++ ns.map (fun n => (n, true)) := by
  intro ns
  induction ns with
  | nil => intro acc _ _; simp
  | cons n tl ih =>
      intro acc hnd hfresh
      rw [List.nodup_cons] at hnd
      have hanyf : acc.any (fun p => p.1 == n) = false := by
        rw [List.any_eq_false]
        intro p hp
        simp only [beq_iff_eq]
        intro hpk
        have hmem2 : (n, p.2) ∈ acc := by
          have : (p.1, p.2) = p := rfl
          rw [← hpk]
          rw [this]
          exact hp
        exact hfresh n (List.mem_cons_self _ _) p.2 hmem2
      have hset : mapSet acc n true = acc ++ [(n, true)] := by
        simp [mapSet, hanyf]
      rw [List.foldl_cons, hset, ih (acc ++ [(n, true)]) hnd.2]
      · simp
      · intro m hm v hv
        rcases List.mem_append.mp hv with h | h
        · exact hfresh m (by simp [hm]) v h
        · simp only [List.mem_singleton, Prod.mk.injEq] at h
          exact hnd.1 (h.1 ▸ hm)

/-! ### MarshalJSON lemmas -/

theorem mem_marshalJSON (g : GroupMemberNames) (n : String) :
    n ∈ GroupMemberNames.marshalJSON g ↔ (n, true) ∈ (g : List (String × Bool)) := by
  unfold GroupMemberNames.marshalJSON
  rw [List.Perm.mem_iff (List.perm_insertionSort _ _)]
  constructor
  · intro h
    rcases List.mem_map.mp h with ⟨p, hpmem, hpfst⟩
    have hp2 : p.2 = true := by
      have := List.of_mem_filter hpmem
      simpa using this
    have : p = (n, true) := by
      cases p
      simp only [Prod.mk.injEq]
      exact ⟨hpfst, hp2⟩
    exact this ▸ (List.mem_of_mem_filter hpmem)
  · intro h
    exact List.mem_map.mpr ⟨(n, true), List.mem_filter.mpr ⟨h, rfl⟩, rfl⟩

theorem nodup_marshalJSON (g : GroupMemberNames)
    (hnd : (List.map Prod.fst g).Nodup) :
    (GroupMemberNames.marshalJSON g).Nodup := by
  unfold GroupMemberNames.marshalJSON
  rw [(List.perm_insertionSort _ _).nodup_iff]
  exact List.Nodup.map_on
    (fun p hp q hq heq =>
      mem_eq_of_nodupKeys hnd (List.mem_of_mem_filter hp) (List.mem_of_mem_filter hq) heq)
    ((List.Nodup.of_map Prod.fst hnd).filter _)

theorem sorted_marshalJSON (g : GroupMemberNames) :
    List.Pairwise (fun a b => strLe a b = true) (GroupMemberNames.marshalJSON g) := by
  unfold GroupMemberNames.marshalJSON
  haveI htot : IsTotal String (fun a b => strLe a b = true) := by
    constructor
    intro a b
    rcases Bool.or_eq_true_iff.mp (strLe_total a b) with h | h
    · exact Or.inl h
    · exact Or.inr h
  haveI htr : IsTrans String (fun a b => strLe a b = true) := by
    constructor
    intro a b c hab hbc
    exact strLe_trans a b c hab hbc
  exact List.sorted_insertionSort _ _

/-- C5: `MarshalJSON` produces a sorted, duplicate-free array containing
exactly the names mapped to `true` (false entries omitted), and for member
maps with no `false` entries the marshal/unmarshal round-trip reproduces the
original map (as a Go map, i.e. up to graph equality). The duplicate-freeness
and round-trip parts assume the map graph has pairwise distinct keys, which
every value of Go type `map[string]bool` satisfies. -/
theorem C5_GroupMemberNames_marshal_roundtrip (g : GroupMemberNames) :
    List.Pairwise (fun a b => strLe a b = true) (GroupMemberNames.marshalJSON g) ∧
    (∀ n, n ∈ GroupMemberNames.marshalJSON g ↔ (n, true) ∈ (g : List (String × Bool))) ∧
    ((List.map Prod.fst g).Nodup → (GroupMemberNames.marshalJSON g).Nodup) ∧
    ((List.map Prod.fst g).Nodup → (∀ p ∈ (g : List (String × Bool)), p.2 = true) →
      mapEquiv (GroupMemberNames.unmarshalJSON (GroupMemberNames.marshalJSON g)) g = true) := by
  refine ⟨sorted_marshalJSON g, fun n => mem_marshalJSON g n, nodup_marshalJSON g, ?_⟩
  intro hnd hall
  have hmnd : (GroupMemberNames.marshalJSON g).Nodup := nodup_marshalJSON g hnd
  have hunm : GroupMemberNames.unmarshalJSON (GroupMemberNames.marshalJSON g) =
      (GroupMemberNames.marshalJSON g).map (fun n => (n, true)) := by
    unfold GroupMemberNames.unmarshalJSON
    rw [foldl_mapSet_of_nodup _ [] hmnd (by intro n _ v h; cases h)]
    simp
  rw [hunm]
  unfold mapEquiv
  apply Bool.and_eq_true_iff.mpr
  constructor
  · rw [List.all_eq_true]
    intro p hp
    rcases List.mem_map.mp hp with ⟨n, hn, hpn⟩
    have hmem : (n, true) ∈ (g : List (String × Bool)) := (mem_marshalJSON g n).mp hn
    rw [← hpn]
    simp only
    rw [mapLookup_eq_of_nodupKeys hnd hmem]
    rfl
  · rw [List.all_eq_true]
    intro p hp
    have hp2 : p.2 = true := hall p hp
    have hmem : p.1 ∈ GroupMemberNames.marshalJSON g := by
      rw [mem_marshalJSON]
      have hpe : p = (p.1, true) := by
        cases p; simp_all
      exact hpe ▸ hp
    have hmapnd : (((GroupMemberNames.marshalJSON g).map (fun n => (n, true))).map
        Prod.fst).Nodup := by
      rw [List.map_map]
      have hcomp : (Prod.fst ∘ fun n : String => (n, true)) = id := rfl
      rw [hcomp, List.map_id]
      exact hmnd
    have hmemmap : (p.1, true) ∈ (GroupMemberNames.marshalJSON g).map (fun n => (n, true)) :=
      List.mem_map.mpr ⟨p.1, hmem, rfl⟩
    rw [mapLookup_eq_of_nodupKeys hmapnd hmemmap]
    simp [hp2]

/-- C9: `Group.IsEqualTo` ignores the `Engine` field: whatever engine
references the two groups carry, the comparison equals `reflect.DeepEqual`
of the two groups with their engines erased, which compares exactly the
remaining fields (name, long name, member map, permissions); and a
non-`Group` entity is never equal. -/
theorem C9_Group_isEqualTo_engine_insensitive (g rhs : Group) (e e' : EngineRef) (u : User) :
    Group.isEqualTo { g with engine := e } (.group { rhs with engine := e' }) =
      (g.name == rhs.name && g.longName == rhs.longName &&
       mapEquiv g.memberLoginNames rhs.memberLoginNames &&
       g.permissions == rhs.permissions) ∧
    Group.isEqualTo { g with engine := e } (.user u) = false := by
  constructor
  · simp [Group.isEqualTo, Group.deepEqual]
  · rfl

/-- C6: `Group.RenderToLDAP` returns an add request whose DN is
`cn=<name>,ou=groups,<suffix>`, whose attributes are exactly `cn` (the group
name), `member` (one DN `uid=<login>,ou=users,<suffix>` per login mapped to
`true`; exactly one each when the member map has distinct keys) and
`objectClass {groupOfNames, top}`. `Group` has no posix gid field in this
code (posixGroup support is an unimplemented TODO in the source), so the
posixGroup/gidNumber clause never triggers. -/
theorem C6_Group_renderToLDAP (g : Group) (suffix : String) :
    (g.renderToLDAP suffix).dn = "cn=" ++ g.name ++ ",ou=groups," ++ suffix ∧
    (g.renderToLDAP suffix).attributes =
      [mkAttr "cn" [g.name],
       mkAttr "member" (g.memberDNames suffix),
       mkAttr "objectClass" ["groupOfNames", "top"]] ∧
    (∀ d, d ∈ g.memberDNames suffix ↔
      ∃ n, (n, true) ∈ (g.memberLoginNames : List (String × Bool)) ∧
        d = "uid=" ++ n ++ ",ou=users," ++ suffix) ∧
    ((List.map Prod.fst g.memberLoginNames).Nodup → (g.memberDNames suffix).Nodup) := by
  refine ⟨rfl, rfl, ?_, ?_⟩
  · intro d
    unfold Group.memberDNames
    constructor
    · intro h
      rcases List.mem_map.mp h with ⟨p, hpmem, hpd⟩
      have hp2 : p.2 = true := by simpa using List.of_mem_filter hpmem
      refine ⟨p.1, ?_, hpd.symm⟩
      have hpe : p = (p.1, true) := by
        cases p; simp_all
      exact hpe ▸ List.mem_of_mem_filter hpmem
    · intro ⟨n, hmem, hd⟩
      exact List.mem_map.mpr ⟨(n, true), List.mem_filter.mpr ⟨hmem, rfl⟩, hd.symm⟩
  · intro hnd
    unfold Group.memberDNames
    apply List.Nodup.map_on
    · intro p hp q hq heq
      have hp' : p ∈ (g.memberLoginNames : List (String × Bool)) := List.mem_of_mem_filter hp
      have hq' : q ∈ (g.memberLoginNames : List (String × Bool)) := List.mem_of_mem_filter hq
      have hkey : p.1 = q.1 := by
        have hdata := congrArg String.data heq
        simp only [String.data_append] at hdata
        have h1 := List.append_cancel_right hdata
        have h2 := List.append_cancel_right h1
        have h3 := List.append_cancel_left h2
        exact String.ext h3
      exact mem_eq_of_nodupKeys hnd hp' hq' hkey
    · exact (List.Nodup.of_map Prod.fst hnd).filter _

/-- Witness for C5: a concrete two-member map round-trips and marshals
without duplicates. -/
theorem C5_GroupMemberNames_marshal_roundtrip_witness :
    mapEquiv
      (GroupMemberNames.unmarshalJSON
        (GroupMemberNames.marshalJSON [("bob", true), ("alice", true)]))
      [("bob", true), ("alice", true)] = true ∧
    (GroupMemberNames.marshalJSON [("bob", true), ("alice", true)]).Nodup :=
  ⟨(C5_GroupMemberNames_marshal_roundtrip [("bob", true), ("alice", true)]).2.2.2
      (by decide) (by decide),
   (C5_GroupMemberNames_marshal_roundtrip [("bob", true), ("alice", true)]).2.2.1
      (by decide)⟩

/-- Witness for C6: a concrete group's member attribute has one DN per member. -/
theorem C6_Group_renderToLDAP_witness :
    (Group.memberDNames
      { name := "admins", longName := "Admins",
        memberLoginNames := [("admin", true), ("bob", false)],
        permissions := ⟨⟨true⟩, ⟨false⟩⟩, engine := none }
      "dc=example,dc=org").Nodup :=
  (C6_Group_renderToLDAP
      { name := "admins", longName := "Admins",
        memberLoginNames := [("admin", true), ("bob", false)],
        permissions := ⟨⟨true⟩, ⟨false⟩⟩, engine := none }
      "dc=example,dc=org").2.2.2 (by decide)

/-! ### Go map update/lookup lemmas -/

theorem mapLookup_map_replace {V : Type} (k : String) (v : V) :
    ∀ (m : List (String × V)) (q : String),
      mapLookup (m.map (fun p => if p.1 == k then (p.1, v) else p)) q =
        if q = k then (mapLookup m k).map (fun _ => v) else mapLookup m q := by
  intro m
  induction m with
  | nil => intro q; simp [mapLookup]
  | cons a tl ih =>
      intro q
      rw [List.map_cons]
      by_cases hak : a.1 = k
      · have hhead : (if (a.1 == k) then (a.1, v) else a) = (a.1, v) :=
          if_pos (by simpa using hak)
        rw [hhead]
        by_cases hqk : q = k
        · subst hqk
          rw [mapLookup, if_pos (by simpa using hak), if_pos rfl]
          rw [mapLookup, if_pos (by simpa using hak)]
          rfl
        · have hanq : ¬ a.1 = q := fun h => hqk (h ▸ hak)
          rw [mapLookup, if_neg (by simpa using hanq), if_neg hqk]
          rw [mapLookup, if_neg (by simpa using hanq)]
          have hih := ih q
          rw [if_neg hqk] at hih
          exact hih
      · have hhead : (if (a.1 == k) then (a.1, v) else a) = a :=
          if_neg (by simpa using hak)
        rw [hhead]
        by_cases haq : a.1 = q
        · have hqk : ¬ q = k := fun h => hak (haq.symm ▸ h)
          rw [mapLookup, if_pos (by simpa using haq), if_neg hqk]
          rw [mapLookup, if_pos (by simpa using haq)]
        · rw [mapLookup, if_neg (by simpa using haq)]
          by_cases hqk : q = k
          · subst hqk
            rw [if_pos rfl]
            rw [mapLookup, if_neg (by simpa using hak)]
            have hih := ih q
            rw [if_pos rfl] at hih
            exact hih
          · rw [if_neg hqk]
            rw [mapLookup, if_neg (by simpa using haq)]
            have hih := ih q
            rw [if_neg hqk] at hih
            exact hih

theorem mapLookup_append_single {V : Type} (k : String) (v : V) :
    ∀ (m : List (String × V)) (q : String),
      mapLookup (m ++ [(k, v)]) q =
        match mapLookup m q with
        | some r => some r
        | none => if q = k then some v else none := by
  intro m
  induction m with
  | nil =>
      intro q
      simp only [List.nil_append]
      by_cases hqk : q = k
      · subst hqk
        simp [mapLookup]
      · simp [mapLookup, hqk, Ne.symm hqk]
  | cons a tl ih =>
      intro q
      by_cases haq : a.1 = q
      · simp [mapLookup, haq]
      · rw [List.cons_append, mapLookup, if_neg (by simpa using haq)]
        rw [mapLookup, if_neg (by simpa using haq)]
        exact ih q

theorem mapLookup_eq_none_of_any_false {V : Type} :
    ∀ {m : List (String × V)} {k : String},
      m.any (fun p => p.1 == k) = false → mapLookup m k = none := by
  intro m
  induction m with
  | nil => intro k _; rfl
  | cons a tl ih =>
      intro k h
      rw [List.any_cons, Bool.or_eq_false_iff] at h
      rw [mapLookup, if_neg (by simp [h.1])]
      exact ih h.2

theorem mapLookup_isSome_of_any_true {V : Type} :
    ∀ {m : List (String × V)} {k : String},
      m.any (fun p => p.1 == k) = true → ∃ r, mapLookup m k = some r := by
  intro m
  induction m with
  | nil => intro k h; simp at h
  | cons a tl ih =>
      intro k h
      by_cases hak : a.1 = k
      · exact ⟨a.2, by rw [mapLookup, if_pos (by simpa using hak)]⟩
      · rw [List.any_cons, Bool.or_eq_true_iff] at h
        rcases h with h | h
        · exact absurd (by simpa using h) hak
        · rcases ih h with ⟨r, hr⟩
          exact ⟨r, by rw [mapLookup, if_neg (by simpa using hak)]; exact hr⟩

/-- The central Go map law: setting key `k` to `v` makes lookups of `k`
return `v` and leaves every other key unchanged. -/
theorem mapLookup_mapSet {V : Type} (m : List (String × V)) (k q : String) (v : V) :
    mapLookup (mapSet m k v) q = if q = k then some v else mapLookup m q := by
  by_cases hany : m.any (fun p => p.1 == k) = true
  · rw [mapSet, if_pos hany, mapLookup_map_replace]
    by_cases hqk : q = k
    · rw [if_pos hqk, if_pos hqk]
      rcases mapLookup_isSome_of_any_true hany with ⟨r, hr⟩
      rw [hr]
      rfl
    · rw [if_neg hqk, if_neg hqk]
  · rw [mapSet, if_neg hany, mapLookup_append_single]
    have hnone := mapLookup_eq_none_of_any_false (Bool.not_eq_true _ ▸ hany)
    by_cases hqk : q = k
    · subst hqk
      rw [hnone]
    · cases hmq : mapLookup m q
      · simp [hqk]
      · simp [hqk]

theorem mapLookup_foldl_insert_true :
    ∀ (vs : List String) (m : List (String × Bool)) (k : String),
      mapLookup (vs.foldl (fun m v => mapSet m v true) m) k =
        if k ∈ vs then some true else mapLookup m k := by
  intro vs
  induction vs with
  | nil => intro m k; simp
  | cons v tl ih =>
      intro m k
      rw [List.foldl_cons, ih]
      by_cases htl : k ∈ tl
      · rw [if_pos htl, if_pos (by simp [htl])]
      · rw [if_neg htl, mapLookup_mapSet]
        by_cases hkv : k = v
        · rw [if_pos hkv, if_pos (by simp [hkv])]
        · rw [if_neg hkv, if_neg (by simp [hkv, htl])]

/-! ### ReadState lemmas -/

theorem optionErrorMessage_ne_empty (v : String) : optionErrorMessage v ≠ "" := by
  intro h
  have := congrArg String.data h
  simp [optionErrorMessage, String.data_append] at this

theorem readState_fold_selected (valid : List (String × Bool)) :
    ∀ (vs : List String) (s : FieldState),
      (vs.foldl (readStateStep valid) s).selected =
        vs.foldl (fun m v => mapSet m v true) s.selected := by
  intro vs
  induction vs with
  | nil => intro s; rfl
  | cons v tl ih =>
      intro s
      rw [List.foldl_cons, List.foldl_cons, ih]
      rfl

theorem readState_fold_errorMessage (valid : List (String × Bool)) :
    ∀ (vs : List String) (s : FieldState),
      ((vs.foldl (readStateStep valid) s).errorMessage = "" ↔
        (s.errorMessage = "" ∧ ∀ v ∈ vs, (mapLookup valid v).getD false = true)) := by
  intro vs
  induction vs with
  | nil => intro s; simp
  | cons v tl ih =>
      intro s
      rw [List.foldl_cons, ih]
      by_cases hv : (mapLookup valid v).getD false = true
      · have hstep : (readStateStep valid s v).errorMessage = s.errorMessage := by
          simp [readStateStep, hv]
        rw [hstep]
        constructor
        · rintro ⟨h1, h2⟩
          refine ⟨h1, ?_⟩
          intro w hw
          rcases List.mem_cons.mp hw with h | h
          · exact h ▸ hv
          · exact h2 w h
        · rintro ⟨h1, h2⟩
          exact ⟨h1, fun w hw => h2 w (List.mem_cons_of_mem _ hw)⟩
      · have hstep : (readStateStep valid s v).errorMessage = optionErrorMessage v := by
          simp [readStateStep, hv]
        rw [hstep]
        constructor
        · intro ⟨h1, _⟩
          exact absurd h1 (optionErrorMessage_ne_empty v)
        · intro ⟨_, h2⟩
          exact absurd (h2 v (by simp)) hv

theorem isValidValueMap_lookup (f : SelectFieldSpec) (v : String) :
    mapLookup f.isValidValueMap v =
      if v ∈ f.options.map SelectOptionSpec.value then some true else none := by
  unfold SelectFieldSpec.isValidValueMap
  have hfold : f.options.foldl (fun m o => mapSet m o.value true) ([] : List (String × Bool)) =
      (f.options.map SelectOptionSpec.value).foldl (fun m v => mapSet m v true) [] := by
    rw [List.foldl_map]
  rw [hfold, mapLookup_foldl_insert_true]
  by_cases h : v ∈ f.options.map SelectOptionSpec.value
  · rw [if_pos h, if_pos h]
  · rw [if_neg h, if_neg h]
    rfl

/-- C10: a read-only `SelectFieldSpec` leaves the `FormState` entirely
unchanged, whatever the request posted. Otherwise `ReadState` stores at the
field's name a state whose `Selected` map holds exactly the posted values
(each mapped to `true`), with an error message present exactly when some
posted value is not among the declared options. -/
theorem C10_SelectFieldSpec_readState (f : SelectFieldSpec)
    (postForm : String → List String) (fs : FormState) :
    (f.readOnly = true → f.readState postForm fs = fs) ∧
    (f.readOnly = false → ∃ s : FieldState,
      mapLookup (f.readState postForm fs).fields f.name = some s ∧
      (∀ v, mapLookup s.selected v =
        if v ∈ postForm f.name then some true else none) ∧
      (s.errorMessage ≠ "" ↔
        ∃ v ∈ postForm f.name, v ∉ f.options.map SelectOptionSpec.value)) := by
  constructor
  · intro hro
    unfold SelectFieldSpec.readState
    rw [if_pos hro]
  · intro hro
    unfold SelectFieldSpec.readState
    rw [if_neg (by simp [hro])]
    refine ⟨(postForm f.name).foldl (readStateStep f.isValidValueMap)
      { selected := [], errorMessage := "" }, ?_, ?_, ?_⟩
    · show mapLookup
        (mapSet fs.fields f.name
          ((postForm f.name).foldl (readStateStep f.isValidValueMap)
            { selected := [], errorMessage := "" })) f.name = some _
      rw [mapLookup_mapSet, if_pos rfl]
    · intro v
      rw [readState_fold_selected, mapLookup_foldl_insert_true]
      by_cases h : v ∈ postForm f.name
      · rw [if_pos h, if_pos h]
      · rw [if_neg h, if_neg h]
        rfl
    · constructor
      · intro hne
        by_contra hex
        push_neg at hex
        apply hne
        rw [readState_fold_errorMessage]
        refine ⟨rfl, ?_⟩
        intro v hv
        rw [isValidValueMap_lookup, if_pos (hex v hv)]
        rfl
      · intro ⟨v, hv, hnot⟩ hem
        rw [readState_fold_errorMessage] at hem
        have hvv := hem.2 v hv
        rw [isValidValueMap_lookup, if_neg hnot] at hvv
        simp at hvv

/-- Witness for C10: a read-only field leaves the form state unchanged, and
the writable version of the same field records the posted values, flagging
the undeclared value "c". -/
theorem C10_SelectFieldSpec_readState_witness :
    SelectFieldSpec.readState sampleSelectFieldRO samplePostForm emptyFormState =
      emptyFormState ∧
    (∃ s : FieldState,
      mapLookup (SelectFieldSpec.readState sampleSelectField samplePostForm
        emptyFormState).fields sampleSelectField.name = some s ∧
      (∀ v, mapLookup s.selected v =
        if v ∈ samplePostForm sampleSelectField.name then some true else none) ∧
      (s.errorMessage ≠ "" ↔
        ∃ v ∈ samplePostForm sampleSelectField.name,
          v ∉ sampleSelectField.options.map SelectOptionSpec.value)) :=
  ⟨(C10_SelectFieldSpec_readState sampleSelectFieldRO samplePostForm emptyFormState).1 rfl,
   (C10_SelectFieldSpec_readState sampleSelectField samplePostForm emptyFormState).2 rfl⟩

/-! ### The Nexus claims -/

/-- C1: refuted on the seed-conflict path — evaluating `nexusImpl.Update` at
a reducer that changes the seed-pinned field `admin.given_name` with
`ConflictWithSeedIsError = true` shows that `CheckConflicts` does report a
conflict on the candidate, yet `Update` returns an empty error set, commits
the conflicting candidate as the new snapshot, and notifies the listener.
The source computes the conflict errors into `errs` but both later exits
are `return nil`, contradicting the documentation of
`UpdateOptions.ConflictWithSeedIsError` ("conflicts with the seed will be
reported as validation errors"). -/
theorem C1_nexusUpdate_drops_seed_conflict_errors :
    sampleSeed.checkConflicts renamedDB = [seedConflict "user" "admin" "given_name"] ∧
    nexusUpdate sampleNexus renameAdminReducer (some ⟨true⟩) =
      ({ sampleNexus with db := renamedDB }, [], [(0, renamedDB)]) := by
  decide

/-- C2: refuted — `nexusImpl.Update` runs no cross-entity validator (the
source marks validation as a TODO). A reducer creating user `bob` with
`posix.gid = 1001` while the database has no group at all (hence none with
posix gid 1001) is committed with an empty error set and the listener is
notified, instead of being rejected with a validation error on `posix_gid`. -/
theorem C2_nexusUpdate_commits_dangling_posix_gid :
    nexusUpdate emptyNexus addBobReducer none =
      ({ emptyNexus with db := bobDB }, [], [(0, bobDB)]) ∧
    (∃ u ∈ bobDB.users, ∃ p, u.posix = some p ∧ p.gid = 1001) ∧
    bobDB.groups = [] := by
  decide

/-- C3: when the reducer succeeds and its result — after `Normalize` and
seed enforcement — is structurally equal to the current database,
`nexusImpl.Update` returns success (`nil` error set), keeps the state
exactly as it was, and performs no listener callback. -/
theorem C3_nexusUpdate_equal_candidate_is_silent
    (n : NexusState) (reducer : Reducer) (optsPtr : Option UpdateOptions) (d : Database)
    (hred : reducer n.db.cloned = .ok d)
    (heq : applySeedPolicy n.seed (optsPtr.getD ⟨false⟩).conflictWithSeedIsError
      d.normalize = n.db) :
    nexusUpdate n reducer optsPtr = (n, [], []) := by
  unfold nexusUpdate
  rw [hred]
  simp [heq]

/-- Witness for C3: the identity reducer on the empty database changes
nothing and notifies nobody. -/
theorem C3_nexusUpdate_equal_candidate_is_silent_witness :
    nexusUpdate emptyNexus idReducer none = (emptyNexus, [], []) :=
  C3_nexusUpdate_equal_candidate_is_silent emptyNexus idReducer none
    emptyNexus.db.cloned rfl (by decide)

/-- C4: `nexusImpl.AddListener` always appends the listener; if the current
database is non-empty and the listener's context has not expired, the
callback fires exactly once, immediately, with a clone of the current
database; if the database is empty or the context has already expired, no
immediate callback occurs. -/
theorem C4_nexusAddListener_immediate_callback
    (n : NexusState) (ctxExpired : Bool) (id : Nat) :
    (n.db.isEmpty = false → ctxExpired = false →
      nexusAddListener n ctxExpired id =
        ({ n with listeners := n.listeners ++ [⟨ctxExpired, id⟩] },
         [(id, n.db.cloned)])) ∧
    (n.db.isEmpty = true ∨ ctxExpired = true →
      nexusAddListener n ctxExpired id =
        ({ n with listeners := n.listeners ++ [⟨ctxExpired, id⟩] }, [])) := by
  constructor
  · intro h1 h2
    simp [nexusAddListener, h1, h2]
  · intro h
    rcases h with h | h <;> simp [nexusAddListener, h]

/-! ### slapd configuration lemmas -/

theorem startsWithTLS_cons_eq_false {c : Char} (t : List Char) (h : ¬ c = 'T') :
    startsWithTLS (c :: t) = false := by
  show List.isPrefixOf "TLS".data (c :: t) = false
  show List.isPrefixOf ('T' :: 'L' :: 'S' :: []) (c :: t) = false
  simp [List.isPrefixOf]
  intro hT
  exact absurd hT.symm h

theorem startsWithTLS_eq_false_of_safe :
    ∀ {l : List Char}, lineStartSafe l = true → startsWithTLS l = false := by
  intro l h
  cases l with
  | nil => rfl
  | cons d rest =>
      simp only [lineStartSafe, Bool.and_eq_true, Bool.not_eq_true',
        decide_eq_false_iff_not] at h
      exact startsWithTLS_cons_eq_false rest h.2

theorem afterNLOk_of_tailOk : ∀ {l : List Char}, tailOk l = true → afterNLOk l = true := by
  intro l
  induction l with
  | nil => intro _; rfl
  | cons c rest ih =>
      intro h
      rw [tailOk, Bool.and_eq_true] at h
      rw [afterNLOk]
      by_cases hc : c = '\n'
      · rw [if_pos hc]
        rw [if_pos hc] at h
        rw [startsWithTLS_eq_false_of_safe h.1]
        simp [ih h.2]
      · rw [if_neg hc]
        exact ih h.2

theorem startsWithTLS_substAux_eq_false (env : String → String) :
    ∀ (fuel : Nat) {l : List Char}, lineStartSafe l = true →
      startsWithTLS (substAux env fuel l) = false := by
  intro fuel
  cases fuel with
  | zero => intro l h; exact startsWithTLS_eq_false_of_safe h
  | succ fuel =>
      intro l h
      cases l with
      | nil => rfl
      | cons c rest =>
          simp only [lineStartSafe, Bool.and_eq_true, Bool.not_eq_true',
            decide_eq_false_iff_not] at h
          rw [substAux, if_neg h.1]
          exact startsWithTLS_cons_eq_false _ h.2

theorem afterNLOk_append_of_noNewline :
    ∀ {v : List Char}, (∀ c ∈ v, ¬ c = '\n') → ∀ (out : List Char),
      afterNLOk (v ++ out) = afterNLOk out := by
  intro v
  induction v with
  | nil => intro _ out; rfl
  | cons c tl ih =>
      intro h out
      rw [List.cons_append, afterNLOk, if_neg (h c (by simp))]
      exact ih (fun d hd => h d (List.mem_cons_of_mem _ hd)) out

theorem tailOk_append_right :
    ∀ {xs ys : List Char}, tailOk (xs ++ ys) = true → tailOk ys = true := by
  intro xs
  induction xs with
  | nil => intro ys h; exact h
  | cons c tl ih =>
      intro ys h
      rw [List.cons_append, tailOk, Bool.and_eq_true] at h
      exact ih h.2

theorem head?_eq_some_cons {α : Type} {l : List α} {a : α} (h : l.head? = some a) :
    l = a :: l.tail := by
  cases l with
  | nil => cases h
  | cons b t =>
      simp only [List.head?_cons, Option.some.injEq] at h
      rw [h]
      rfl

theorem afterNLOk_substAux (env : String → String)
    (henv : ∀ k, noNewline (env k) = true) :
    ∀ (fuel : Nat) (l : List Char), tailOk l = true →
      afterNLOk (substAux env fuel l) = true := by
  intro fuel
  induction fuel with
  | zero => intro l h; exact afterNLOk_of_tailOk h
  | succ fuel ih =>
      intro l h
      cases l with
      | nil => rfl
      | cons c rest =>
          rw [tailOk, Bool.and_eq_true] at h
          by_cases hc : c = '%'
          · have hrest : tailOk rest = true := h.2
            rw [substAux, if_pos hc]
            by_cases hm : rest.takeWhile isWordChar ≠ [] ∧
                (rest.dropWhile isWordChar).head? = some '%'
            · rw [if_pos hm]
              have hsplit : rest = rest.takeWhile isWordChar ++
                  rest.dropWhile isWordChar :=
                (List.takeWhile_append_dropWhile _ _).symm
              have hdrop : rest.dropWhile isWordChar =
                  '%' :: (rest.dropWhile isWordChar).tail :=
                head?_eq_some_cons hm.2
              have htail2 : tailOk ((rest.dropWhile isWordChar).tail) = true := by
                have h1 : tailOk (rest.dropWhile isWordChar) = true := by
                  apply tailOk_append_right
                  rw [← hsplit]
                  exact hrest
                rw [hdrop, tailOk, Bool.and_eq_true] at h1
                exact h1.2
              have hnl : ∀ d ∈ (env (String.mk (rest.takeWhile isWordChar))).data,
                  ¬ d = '\n' := by
                intro d hd
                have := henv (String.mk (rest.takeWhile isWordChar))
                rw [noNewline, List.all_eq_true] at this
                simpa using this d hd
              rw [afterNLOk_append_of_noNewline hnl]
              exact ih _ htail2
            · rw [if_neg hm, afterNLOk, if_neg (by decide)]
              exact ih rest hrest
          · rw [substAux, if_neg hc, afterNLOk]
            by_cases hnl : c = '\n'
            · rw [if_pos hnl]
              rw [if_pos hnl] at h
              rw [startsWithTLS_substAux_eq_false env fuel h.1]
              simp [ih rest h.2]
            · rw [if_neg hnl]
              exact ih rest h.2

set_option maxRecDepth 1000000 in
theorem tailOk_strippedTemplate :
    tailOk (stripTLSLines configTemplate.data) = true := by decide

set_option maxRecDepth 1000000 in
theorem lineStartSafe_strippedTemplate :
    lineStartSafe (stripTLSLines configTemplate.data) = true := by decide

set_option maxRecDepth 1000000 in
/-- C7 (amended): with `PORTUNUS_SLAPD_TLS_CERTIFICATE` empty, the rendered
configuration contains no line beginning with "TLS", provided the values
substituted for placeholders contain no newline (TLS stripping happens on
the template before placeholder substitution, so a value containing a
newline followed by `TLS` can re-introduce such a line — see the
counterexample). With the variable non-empty, the template is substituted
without stripping, so all TLS lines are retained with their placeholders
substituted. -/
theorem C7_renderSlapdConfig_tls (environment : String → String)
    (password passwordHash : String) :
    (environment "PORTUNUS_SLAPD_TLS_CERTIFICATE" = "" →
      (∀ k, noNewline (slapdEnv environment password passwordHash k) = true) →
      noTLSLines (renderSlapdConfig environment password passwordHash).data = true) ∧
    (environment "PORTUNUS_SLAPD_TLS_CERTIFICATE" ≠ "" →
      renderSlapdConfig environment password passwordHash =
        substPlaceholders (slapdEnv environment password passwordHash) configTemplate) := by
  constructor
  · intro hcert henv
    show noTLSLines ((String.mk (substAux (slapdEnv environment password passwordHash)
      (if environment "PORTUNUS_SLAPD_TLS_CERTIFICATE" = ""
        then stripTLSLines configTemplate.data else configTemplate.data).length
      (if environment "PORTUNUS_SLAPD_TLS_CERTIFICATE" = ""
        then stripTLSLines configTemplate.data else configTemplate.data))).data) = true
    rw [if_pos hcert]
    show noTLSLines (substAux (slapdEnv environment password passwordHash)
      (stripTLSLines configTemplate.data).length
      (stripTLSLines configTemplate.data)) = true
    rw [noTLSLines, Bool.and_eq_true]
    constructor
    · rw [startsWithTLS_substAux_eq_false _ _ lineStartSafe_strippedTemplate]
      rfl
    · exact afterNLOk_substAux _ henv _ _ tailOk_strippedTemplate
  · intro hcert
    show (String.mk (substAux (slapdEnv environment password passwordHash)
      (if environment "PORTUNUS_SLAPD_TLS_CERTIFICATE" = ""
        then stripTLSLines configTemplate.data else configTemplate.data).length
      (if environment "PORTUNUS_SLAPD_TLS_CERTIFICATE" = ""
        then stripTLSLines configTemplate.data else configTemplate.data))) = _
    rw [if_neg hcert]
    rfl

set_option maxRecDepth 1000000 in
/-- Counterexample for C7 as stated: with the certificate empty but a
placeholder value containing a newline followed by `TLS`, the rendered
configuration does contain a line beginning with "TLS" — the claim's
universal quantification over all environment maps fails. -/
theorem C7_renderSlapdConfig_tls_counterexample :
    evilEnv "PORTUNUS_SLAPD_TLS_CERTIFICATE" = "" ∧
    noTLSLines (renderSlapdConfig evilEnv "pw" "hh").data = false := by
  decide

/-- Witness for C7 (amended): an all-empty environment yields a TLS-free
configuration, and an environment with a certificate keeps the template's
TLS lines (no stripping). -/
theorem C7_renderSlapdConfig_tls_witness :
    noTLSLines (renderSlapdConfig (fun _ => "") "pw" "hh").data = true ∧
    renderSlapdConfig certEnv "pw" "hh" =
      substPlaceholders (slapdEnv certEnv "pw" "hh") configTemplate :=
  ⟨(C7_renderSlapdConfig_tls (fun _ => "") "pw" "hh").1 rfl
      (by
        intro k
        simp only [slapdEnv, envUpdate]
        split_ifs <;> decide),
   (C7_renderSlapdConfig_tls certEnv "pw" "hh").2 (by decide)⟩

/-- Witness for C4: registering on a populated nexus fires the callback once
with the database; registering with an expired context fires nothing. -/
theorem C4_nexusAddListener_immediate_callback_witness :
    nexusAddListener sampleNexus false 7 =
      ({ sampleNexus with listeners := sampleNexus.listeners ++ [⟨false, 7⟩] },
       [(7, sampleNexus.db.cloned)]) ∧
    nexusAddListener emptyNexus true 8 =
      ({ emptyNexus with listeners := emptyNexus.listeners ++ [⟨true, 8⟩] }, []) :=
  ⟨(C4_nexusAddListener_immediate_callback sampleNexus false 7).1 (by decide) rfl,
   (C4_nexusAddListener_immediate_callback emptyNexus true 8).2 (Or.inr rfl)⟩



end Portunus
